import Mathlib

/-!
Shallow embedding of `pydantic_settings/source_mappers.py` and
`pydantic_settings/source_providers.py` (the source-to-field resolution
core) together with theorems about the claims of the specification.

Python dictionaries are modelled as association lists (`List (String × α)`)
with Python's insertion-order semantics: lookup finds the first entry with
the key, assignment replaces the value in place (keeping the entry's
position) or appends a fresh entry at the end, and `dict.update` /
`{**a, **b}` applies the right-hand entries one by one.
-/

namespace PydanticSettings

/-- Python runtime values that can appear in a source mapping, in a result
mapping, or come out of the pluggable complex parser: `None`, strings,
numbers, booleans and (string-keyed, insertion-ordered) dictionaries. -/
inductive Value where
  | none
  | str (s : String)
  | int (n : Int)
  | bool (b : Bool)
  | dict (entries : List (String × Value))

/-- A Python dictionary with string keys, as used for sources and results. -/
abbrev Dict := List (String × Value)

/-- Python `d.get(k)` without default: first entry with key `k`, if any. -/
def alLookup {α : Type} (l : List (String × α)) (k : String) : Option α :=
  (l.find? (fun p => p.1 == k)).map (fun p => p.2)

/-- Python `d[k] = v`: replace the value in place if the key is present
(keeping its position in insertion order), otherwise append at the end. -/
def alSet {α : Type} (l : List (String × α)) (k : String) (v : α) : List (String × α) :=
  if (alLookup l k).isSome then l.map (fun p => if p.1 == k then (k, v) else p)
  else l ++ [(k, v)]

/-- Python `d.update(d2)` (also `\x7b**d, **d2\x7d`): apply the entries of `d2`
to `d` one by one, left to right. -/
def alUpdate {α : Type} (l l2 : List (String × α)) : List (String × α) :=
  l2.foldl (fun acc p => alSet acc p.1 p.2) l

/-- Python `value is None`. -/
def Value.isNone : Value → Bool
  | .none => true
  | _ => false

/-- Python `isinstance(value, dict)`, returning the entries when it holds. -/
def Value.asDict : Value → Option Dict
  | .dict d => some d
  | _ => Option.none

/-- A pydantic `ModelField` as consumed by the core: its name, its alias
(`al`), its candidate lookup names (`field_info.extra['env_names']`),
whether an explicit `env` override is configured (`has_env`, combining the
Config-level field info and `field_info.extra['env']`), the external type
introspection results (`field.is_complex()` as `isComplex`; "is a union
with some complex branch" as `isUnionComplex`;
`lenient_issubclass(field.type_, BaseModel)` as `isModel`) and, for nested
models, the sub-fields (`field.type_.__fields__.values()`). -/
inductive Field where
  | mk (name al : String) (envNames : List String)
       (hasEnv isComplex isUnionComplex isModel : Bool)
       (subfields : List Field)

def Field.name : Field → String
  | .mk n _ _ _ _ _ _ _ => n

def Field.al : Field → String
  | .mk _ a _ _ _ _ _ _ => a

def Field.envNames : Field → List String
  | .mk _ _ e _ _ _ _ _ => e

def Field.hasEnv : Field → Bool
  | .mk _ _ _ h _ _ _ _ => h

def Field.isComplex : Field → Bool
  | .mk _ _ _ _ c _ _ _ => c

def Field.isUnionComplex : Field → Bool
  | .mk _ _ _ _ _ u _ _ => u

def Field.isModel : Field → Bool
  | .mk _ _ _ _ _ _ m _ => m

def Field.subfields : Field → List Field
  | .mk _ _ _ _ _ _ _ s => s

/-- `field_is_complex(field)`: whether a field is complex, and if so
whether JSON errors should be ignored. -/
def field_is_complex (f : Field) : Bool × Bool :=
  if f.isComplex then (true, false)
  else if f.isUnionComplex then (true, true)
  else (false, false)

/-- The error raised by the mapper: `SettingsError` carrying the offending
candidate key (the code raises
`SettingsError(f'error parsing env var "\x7bkey\x7d"')`), or the `TypeError` /
`AttributeError` Python would raise when dictionary operations hit a
non-dictionary result entry. -/
inductive Err where
  | settingsError (key : String)
  | pyTypeError

/-- The configuration of a `SourceMapper` instance: the source mapping, the
`case_sensitive` flag, the `nesting_delimiter` and the pluggable
`complex_parser` (which may raise `ValueError`, modelled as `Except Unit`).
The `get_field_info` callable is folded into `Field.hasEnv`. -/
structure Cfg where
  source : Dict
  caseSensitive : Bool
  nestingDelimiter : Option String
  complexParser : String → Value → Except Unit Value

/-- Python `s.lower()` on ASCII strings, written over the character list
so that it evaluates by reduction. -/
def strLower (s : String) : String :=
  ⟨s.data.map Char.toLower⟩

/-- Key normalization used by `keymap`:
`str(source_key) if self.case_sensitive else str(source_key).lower()`. -/
def normKey (caseSensitive : Bool) (sourceKey : String) : String :=
  if caseSensitive then sourceKey else strLower sourceKey

/-- The loop body of the `keymap` property: iterate the source keys in
order; skip a key whose normalized form is already registered, otherwise
register the normalized form pointing at the original key. -/
def keymapAux (caseSensitive : Bool) : List (String × Value) → List (String × String) →
    List (String × String)
  | [], db => db
  | (sourceKey, _) :: rest, db =>
    let key := normKey caseSensitive sourceKey
    if (alLookup db key).isSome then keymapAux caseSensitive rest db
    else keymapAux caseSensitive rest (db ++ [(key, sourceKey)])

/-- The `keymap` of a mapper configuration (the cached property's value,
fully determined by the source and the case-sensitivity flag). -/
def keymapOf (cfg : Cfg) : List (String × String) :=
  keymapAux cfg.caseSensitive cfg.source []

/-- Python truthiness of `self.nesting_delimiter` in
`if lenient_issubclass(...) and self.nesting_delimiter:`
(`None` and the empty string are falsy). -/
def truthyDelim (cfg : Cfg) : Option String :=
  match cfg.nestingDelimiter with
  | some d => if d == "" then Option.none else some d
  | Option.none => Option.none

/-- One candidate step of `get_field_value`: classify the field, and if it
is complex and the value is not already a dictionary, run the complex
parser; a parse failure keeps the raw value when tolerated and raises
`SettingsError` naming the candidate key otherwise. -/
def parseStep (cfg : Cfg) (f : Field) (key : String) (value : Value) : Except Err Value :=
  let ic := field_is_complex f
  if ic.1 then
    match value.asDict with
    | some _ => .ok value
    | Option.none =>
      match cfg.complexParser f.name value with
      | .ok v => .ok v
      | .error _ => if ic.2 then .ok value else .error (.settingsError key)
  else .ok value

/-- `get_field_value(search_radar, field)` over an explicit keymap `km`
(the cached `self.keymap`), with `acc` the `dict_result` accumulator.
Returns `none` for the `_Empty` sentinel. -/
def getFieldValueAux (cfg : Cfg) (km : List (String × String)) (f : Field) :
    List String → Dict → Except Err (Option Value)
  | [], acc => if acc.isEmpty then .ok Option.none else .ok (some (.dict acc))
  | key :: rest, acc =>
    match alLookup km key with
    | Option.none => getFieldValueAux cfg km f rest acc
    | some sourceKey =>
      -- `if not source_key: continue` (a falsy string is the empty string)
      if sourceKey == "" then getFieldValueAux cfg km f rest acc
      else
        let value := (alLookup cfg.source sourceKey).getD .none
        if value.isNone then getFieldValueAux cfg km f rest acc
        else
          match parseStep cfg f key value with
          | .error e => .error e
          | .ok v =>
            match v.asDict with
            | some d => getFieldValueAux cfg km f rest (alUpdate acc d)
            | Option.none => .ok (some v)

/-- `get_field_value` as called on the mapper itself (keymap from the
configuration, empty accumulator). -/
def getFieldValue (cfg : Cfg) (f : Field) (searchRadar : List String) :
    Except Err (Option Value) :=
  getFieldValueAux cfg (keymapOf cfg) f searchRadar []

/-- `result.setdefault(field.alias, \x7b\x7d)` as used by the nested-model
branch: return the (possibly extended) result together with the entry's
dictionary; Python raises when the existing entry is not a dictionary. -/
def setdefaultGet (r : Dict) (al : String) : Except Err (Dict × Dict) :=
  match alLookup r al with
  | some (.dict d) => .ok (r, d)
  | some _ => .error .pyTypeError
  | Option.none => .ok (r ++ [(al, .dict [])], [])

/-- `result.setdefault(field.alias, \x7b\x7d).update(response)` for a
dictionary response. -/
def setdefaultUpdate (r : Dict) (al : String) (resp : Dict) : Except Err Dict :=
  match alLookup r al with
  | some (.dict d) => .ok (alSet r al (.dict (alUpdate d resp)))
  | some _ => .error .pyTypeError
  | Option.none => .ok (r ++ [(al, .dict resp)])

mutual

/-- `update_result_for_field(field, prefix, result)`: compute the candidate
names (prefixed unless an explicit `env` override is configured), resolve
the field's value, write it into the result (merging dictionaries via
`setdefault(...).update(...)`, assigning scalars directly, doing nothing on
the `_Empty` sentinel), then — when the field's type is a nested model and
a truthy nesting delimiter is configured — recursively resolve every
sub-field for every candidate name with the name-plus-delimiter as the new
name prefix. -/
def updateResultForField (cfg : Cfg) (km : List (String × String)) :
    Field → String → Dict → Except Err Dict
  | f@(.mk _ al envNames hasEnv _ _ isM subs), pre, result =>
    let names := if hasEnv then envNames else envNames.map (fun e => pre ++ e)
    match getFieldValueAux cfg km f names [] with
    | .error e => .error e
    | .ok response =>
      let r1e : Except Err Dict :=
        match response with
        | Option.none => .ok result
        | some v =>
          match v.asDict with
          | some d => setdefaultUpdate result al d
          | Option.none => .ok (alSet result al v)
      match r1e with
      | .error e => .error e
      | .ok r1 =>
        match truthyDelim cfg with
        | some d => if isM then loopNames cfg km subs al d names r1 else .ok r1
        | Option.none => .ok r1
  termination_by f _ _ => (sizeOf f, 0)

/-- The outer loop `for name in names:` of the nested-model branch of
`update_result_for_field`. -/
def loopNames (cfg : Cfg) (km : List (String × String)) (subs : List Field)
    (al d : String) : List String → Dict → Except Err Dict
  | [], result => .ok result
  | n :: rest, result =>
    match loopSubs cfg km subs al (n ++ d) result with
    | .error e => .error e
    | .ok r1 => loopNames cfg km subs al d rest r1
  termination_by names _ => (sizeOf subs, 1 + names.length)

/-- The inner loop `for f in field.type_.__fields__.values():` of the
nested-model branch: for each sub-field, `setdefault` the alias entry,
recurse into it with the nesting name prefix, and store the updated
sub-dictionary back. -/
def loopSubs (cfg : Cfg) (km : List (String × String)) :
    List Field → String → String → Dict → Except Err Dict
  | [], _, _, result => .ok result
  | s :: rest, al, npre, result =>
    match setdefaultGet result al with
    | .error e => .error e
    | .ok p =>
      match updateResultForField cfg km s npre p.2 with
      | .error e => .error e
      | .ok sub => loopSubs cfg km rest al npre (alSet p.1 al (.dict sub))
  termination_by fs _ _ _ => (sizeOf fs, 0)

end

/-- The loop `for field in fields:` of `__call__`, threading the result. -/
def callFields (cfg : Cfg) (km : List (String × String)) :
    List Field → Dict → Except Err Dict
  | [], result => .ok result
  | f :: rest, result =>
    match updateResultForField cfg km f "" result with
    | .error e => .error e
    | .ok r1 => callFields cfg km rest r1

/-- `__call__` with no field left returns the accumulated result. -/
theorem callFields_nil (cfg : Cfg) (km : List (String × String)) (r : Dict) :
    callFields cfg km [] r = .ok r := rfl

/-- One iteration of the `__call__` loop: resolve the head field into the
result and continue with the rest. -/
theorem callFields_cons (cfg : Cfg) (km : List (String × String)) (f : Field)
    (rest : List Field) (r : Dict) :
    callFields cfg km (f :: rest) r =
      match updateResultForField cfg km f "" r with
      | .error e => .error e
      | .ok r1 => callFields cfg km rest r1 := rfl

/-- `__call__(fields)` over an explicit keymap: resolve every field with
the empty seed prefix into one result mapping. -/
def callMapperKm (cfg : Cfg) (km : List (String × String)) (fields : List Field) :
    Except Err Dict :=
  callFields cfg km fields []

/-- `__call__(fields)` with the keymap determined by the configuration. -/
def callMapper (cfg : Cfg) (fields : List Field) : Except Err Dict :=
  callMapperKm cfg (keymapOf cfg) fields

/-- The mutable state of a `SourceMapper` instance: the `lru_cache` slot of
the `keymap` property (`Option.none` before the first access). -/
structure MapperState where
  cache : Option (List (String × String))

/-- Access the `keymap` property: return the cached value when present,
otherwise compute it and fill the cache. -/
def keymapCached (cfg : Cfg) (st : MapperState) :
    List (String × String) × MapperState :=
  match st.cache with
  | some km => (km, st)
  | Option.none => (keymapOf cfg, ⟨some (keymapOf cfg)⟩)

/-- `__call__(fields)` on a mapper instance with its cache state: every
keymap access during the call goes through the (now filled) cache. -/
def callMapperSt (cfg : Cfg) (fields : List Field) (st : MapperState) :
    Except Err Dict × MapperState :=
  let p := keymapCached cfg st
  (callMapperKm cfg p.1 fields, p.2)

/-- A dotenv file handed to `dotenv_source_provider`: whether
`Path(file_path).expanduser().is_file()` holds, and the mapping
`dotenv_values(file_path, encoding=...)` yields for a given encoding. -/
structure DotenvFile where
  isFile : Bool
  values : String → List (String × String)

/-- `env_file_encoding if env_file_encoding else 'utf8'` (Python
truthiness: `None` and the empty string fall back to `'utf8'`). -/
def encodingOrDefault (encoding : Option String) : String :=
  match encoding with
  | some e => if e == "" then "utf8" else e
  | Option.none => "utf8"

/-- `dotenv_source_provider(env_file_paths, env_file_encoding)`: fold the
dotenv files in order, skipping paths that are not files, updating the
accumulated mapping with each file's values (parsed under the given or
default encoding). -/
def dotenvSourceProvider (files : List DotenvFile) (encoding : Option String) :
    List (String × String) :=
  let enc := encodingOrDefault encoding
  files.foldl (fun acc f => if f.isFile then alUpdate acc (f.values enc) else acc) []

/-- `env_source_provider(env_file_paths, env_file_encoding)` with the live
process environment `environ` passed explicitly: load the dotenv mapping
when the file list is truthy, then return `\x7b**env_vars, **os.environ\x7d`. -/
def envSourceProvider (environ : List (String × String)) (files : List DotenvFile)
    (encoding : String) : List (String × String) :=
  let envVars := if files.isEmpty then [] else dotenvSourceProvider files (some encoding)
  alUpdate envVars environ

section Lemmas

variable {α : Type}

/-- First-some choice on options, used to state lookup lemmas. -/
def optOr (o o' : Option α) : Option α :=
  match o with
  | some v => some v
  | Option.none => o'

@[simp] theorem optOr_none (o : Option α) : optOr o Option.none = o := by
  cases o <;> rfl

@[simp] theorem none_optOr (o : Option α) : optOr Option.none o = o := rfl

@[simp] theorem some_optOr (v : α) (o : Option α) : optOr (some v) o = some v := rfl

@[simp] theorem alLookup_nil (k : String) : alLookup ([] : List (String × α)) k = Option.none :=
  rfl

theorem alLookup_cons (p : String × α) (l : List (String × α)) (k : String) :
    alLookup (p :: l) k = if p.1 == k then some p.2 else alLookup l k := by
  simp only [alLookup, List.find?]
  cases h : p.1 == k <;> simp [h]

theorem alLookup_append (a b : List (String × α)) (k : String) :
    alLookup (a ++ b) k = optOr (alLookup a k) (alLookup b k) := by
  induction a with
  | nil => simp
  | cons p rest ih =>
    rw [List.cons_append, alLookup_cons, alLookup_cons]
    cases h : p.1 == k <;> simp [h, ih]

theorem alLookup_setMap (l : List (String × α)) (k' k : String) (v : α) :
    alLookup (l.map (fun p => if p.1 == k' then (k', v) else p)) k =
      if k' = k then (alLookup l k).map (fun _ => v) else alLookup l k := by
  induction l with
  | nil => by_cases h : k' = k <;> simp [h]
  | cons p rest ih =>
    rw [List.map_cons]
    by_cases h : p.1 = k' <;> by_cases hk : k' = k <;> by_cases hpk : p.1 = k <;>
      simp_all [alLookup_cons]

theorem alLookup_alSet_self (l : List (String × α)) (k : String) (v : α) :
    alLookup (alSet l k v) k = some v := by
  unfold alSet
  by_cases hs : (alLookup l k).isSome
  · rw [if_pos hs, alLookup_setMap, if_pos rfl]
    rcases hl : alLookup l k with _ | w
    · rw [hl] at hs; simp at hs
    · rfl
  · rw [if_neg hs, alLookup_append, alLookup_cons,
      Option.not_isSome_iff_eq_none.mp hs, if_pos (by simp)]
    rfl

theorem alLookup_alSet_ne (l : List (String × α)) (k' k : String) (v : α) (hne : k' ≠ k) :
    alLookup (alSet l k' v) k = alLookup l k := by
  unfold alSet
  by_cases hs : (alLookup l k').isSome
  · rw [if_pos hs, alLookup_setMap, if_neg hne]
  · rw [if_neg hs, alLookup_append, alLookup_cons, if_neg (by simpa using hne), alLookup_nil,
      optOr_none]

theorem alLookup_eq_none_iff (l : List (String × α)) (k : String) :
    alLookup l k = Option.none ↔ k ∉ l.map Prod.fst := by
  induction l with
  | nil => simp
  | cons p rest ih =>
    rw [alLookup_cons, List.map_cons]
    by_cases h : p.1 = k
    · simp [h]
    · have h' : k ≠ p.1 := fun he => h he.symm
      simp [h, h', ih]

theorem alLookup_alUpdate_of_nodup (a b : List (String × α)) (k : String)
    (hnd : (b.map Prod.fst).Nodup) :
    alLookup (alUpdate a b) k = optOr (alLookup b k) (alLookup a k) := by
  induction b generalizing a with
  | nil => simp [alUpdate]
  | cons p rest ih =>
    rw [show p = (p.1, p.2) from rfl] at *
    simp only [List.map_cons, List.nodup_cons] at hnd
    have step : alUpdate a ((p.1, p.2) :: rest) = alUpdate (alSet a p.1 p.2) rest := rfl
    rw [step, ih _ hnd.2, alLookup_cons]
    by_cases h : p.1 = k
    · have hrest : alLookup rest k = Option.none := by
        rw [alLookup_eq_none_iff]
        rw [h] at hnd
        exact hnd.1
      rw [hrest, h, none_optOr, alLookup_alSet_self, if_pos (by simp)]
      rfl
    · rw [alLookup_alSet_ne _ _ _ _ h, if_neg (by simpa using h)]

end Lemmas

section KeymapLemmas

/-- Lookup in the keymap built by the `keymap` loop: a key already
registered in the accumulator keeps its entry; otherwise the entry is the
first source key (in native iteration order) whose normalized form equals
the looked-up key. -/
theorem keymapAux_lookup (cs : Bool) (src : List (String × Value))
    (db : List (String × String)) (k : String) :
    alLookup (keymapAux cs src db) k =
      optOr (alLookup db k) ((src.map Prod.fst).find? (fun s => normKey cs s == k)) := by
  induction src generalizing db with
  | nil => simp [keymapAux]
  | cons p rest ih =>
    rw [show p = (p.1, p.2) from rfl] at *
    show alLookup (if (alLookup db (normKey cs p.1)).isSome then keymapAux cs rest db
        else keymapAux cs rest (db ++ [(normKey cs p.1, p.1)])) k = _
    by_cases hreg : (alLookup db (normKey cs p.1)).isSome
    · rw [if_pos hreg, ih]
      by_cases hk : normKey cs p.1 == k
      · have : normKey cs p.1 = k := by simpa using hk
        rcases hdb : alLookup db k with _ | w
        · rw [this] at hreg; simp [hdb] at hreg
        · simp [List.map_cons, List.find?, hdb, hk]
      · simp [List.map_cons, List.find?, hk]
    · rw [if_neg hreg, ih, alLookup_append, alLookup_cons]
      have hdb : alLookup db (normKey cs p.1) = Option.none :=
        Option.not_isSome_iff_eq_none.mp hreg
      by_cases hk : normKey cs p.1 == k
      · have he : normKey cs p.1 = k := by simpa using hk
        rw [← he, hdb]
        simp [List.find?, hk]
      · simp [List.map_cons, List.find?, hk, alLookup_nil]

/-- The `keymap` loop preserves distinctness of the registered normalized
keys. -/
theorem keymapAux_nodup (cs : Bool) (src : List (String × Value))
    (db : List (String × String)) (hnd : (db.map Prod.fst).Nodup) :
    ((keymapAux cs src db).map Prod.fst).Nodup := by
  induction src generalizing db with
  | nil => simpa [keymapAux]
  | cons p rest ih =>
    rw [show p = (p.1, p.2) from rfl]
    show ((if (alLookup db (normKey cs p.1)).isSome then keymapAux cs rest db
        else keymapAux cs rest (db ++ [(normKey cs p.1, p.1)])).map Prod.fst).Nodup
    by_cases hreg : (alLookup db (normKey cs p.1)).isSome
    · rw [if_pos hreg]; exact ih db hnd
    · rw [if_neg hreg]
      apply ih
      have hnot : normKey cs p.1 ∉ db.map Prod.fst :=
        (alLookup_eq_none_iff db (normKey cs p.1)).mp (Option.not_isSome_iff_eq_none.mp hreg)
      simpa [List.nodup_append, hnot] using hnd

end KeymapLemmas

section Fixtures

/-- A complex parser that always raises `ValueError`, used by concrete
instantiations. -/
def failP : String → Value → Except Unit Value := fun _ _ => .error ()

/-- A plain simple-typed field with the given candidate names and an
explicit `env` override. -/
def simpleF (envs : List String) : Field := .mk "f" "f" envs true false false false []

/-- Sub-field `host` of the nested-model example. -/
def hostF : Field := .mk "host" "host" ["HOST"] false false false false []

/-- Parent field `db`, whose type is a nested model with sub-field `host`. -/
def dbF : Field := .mk "db" "db" ["DB"] false true false true [hostF]

end Fixtures

/-- C2: for every source mapping and case-sensitivity flag, the keymap has
exactly one entry per normalized key (its keys are distinct, and every
source key's normalized form is present); looking up a normalized key
returns the first source key, in the source's native iteration order,
whose normalized form (identity when case-sensitive, lower-cased string
otherwise) equals it — later colliding keys are silently dropped. -/
theorem C2_keymap_one_entry_first_wins (cfg : Cfg) :
    ((keymapOf cfg).map Prod.fst).Nodup
    ∧ (∀ k, alLookup (keymapOf cfg) k =
        (cfg.source.map Prod.fst).find? (fun s => normKey cfg.caseSensitive s == k))
    ∧ ∀ sk, sk ∈ cfg.source.map Prod.fst →
        (alLookup (keymapOf cfg) (normKey cfg.caseSensitive sk)).isSome := by
  refine ⟨keymapAux_nodup _ _ _ (by simp), fun k => ?_, fun sk hsk => ?_⟩
  · rw [keymapOf, keymapAux_lookup, alLookup_nil, none_optOr]
  · rw [keymapOf, keymapAux_lookup, alLookup_nil, none_optOr, List.find?_isSome]
    exact ⟨sk, hsk, by simp⟩

/-- The source of the case-collision example: three differently-cased
spellings of `foo`, case-insensitive mode. -/
def cfg2w : Cfg := ⟨[("Foo", .str "1"), ("FOO", .str "2"), ("foo", .str "3")], false,
  Option.none, failP⟩

/-- Witness for C2 at the spec's collision example: the keymap resolves
`"foo"` to the first-encountered original key `"Foo"`, and the normalized
form of the dropped key `"FOO"` is still present. -/
theorem C2_witness :
    alLookup (keymapOf cfg2w) "foo" = some "Foo"
    ∧ (alLookup (keymapOf cfg2w) (normKey false "FOO")).isSome := by
  constructor
  · exact ((C2_keymap_one_entry_first_wins cfg2w).2.1 "foo").trans (by rfl)
  · exact (C2_keymap_one_entry_first_wins cfg2w).2.2 "FOO" (by simp [cfg2w])

/-- C1: `get_field_value` scans the candidate names in list order; a
candidate absent from the keymap is skipped, and the first candidate whose
value comes out of the classification/parse step as a non-dictionary is
returned immediately, short-circuiting all remaining candidates — in
particular, for a non-complex field the first matching non-null
non-dictionary value is returned verbatim. -/
theorem C1_first_scalar_wins (cfg : Cfg) (f : Field) (k sk : String) (v : Value)
    (rest : List String)
    (h1 : alLookup (keymapOf cfg) k = some sk) (h2 : sk ≠ "")
    (h3 : alLookup cfg.source sk = some v) (h4 : v.isNone = false) :
    (∀ w, parseStep cfg f k v = .ok w → w.asDict = Option.none →
      getFieldValue cfg f (k :: rest) = .ok (some w))
    ∧ (field_is_complex f = (false, false) → v.asDict = Option.none →
      getFieldValue cfg f (k :: rest) = .ok (some v))
    ∧ ∀ (k' : String) (radar : List String) (acc : Dict),
        alLookup (keymapOf cfg) k' = Option.none →
        getFieldValueAux cfg (keymapOf cfg) f (k' :: radar) acc =
          getFieldValueAux cfg (keymapOf cfg) f radar acc := by
  have h2' : (sk == "") = false := beq_eq_false_iff_ne.mpr h2
  have main : ∀ w, parseStep cfg f k v = .ok w → w.asDict = Option.none →
      getFieldValue cfg f (k :: rest) = .ok (some w) := by
    intro w hp hw
    simp only [getFieldValue, getFieldValueAux, h1, h2', Bool.false_eq_true, if_false, h3,
      Option.getD_some, h4, hp, hw]
  refine ⟨main, fun h6 h5 => main v (by simp [parseStep, h6]) h5, ?_⟩
  intro k' radar acc h
  simp only [getFieldValueAux, h]

/-- The precedence example: source `\x7b"B": "2", "A": "1"\x7d` in that
insertion order, case-sensitive mode. -/
def cfg1w : Cfg := ⟨[("B", .str "2"), ("A", .str "1")], true, Option.none, failP⟩

/-- Witness for C1 at the spec's precedence example: with candidates
`["A","B"]` the value under `"A"` is returned, not the source-order-first
`"B"`. -/
theorem C1_witness :
    getFieldValue cfg1w (simpleF ["A", "B"]) ["A", "B"] = .ok (some (.str "1")) :=
  (C1_first_scalar_wins cfg1w (simpleF ["A", "B"]) "A" "A" (.str "1") ["B"]
    rfl (by decide) rfl rfl).2.1 rfl rfl

/-- The mixed-case lookup example: source `\x7b"FOO": "x"\x7d`,
case-insensitive mode. -/
def cfg4 : Cfg := ⟨[("FOO", .str "x")], false, Option.none, failP⟩

/-- Counterexample to C4: in case-insensitive mode the keymap does contain
the entry `"foo" ↦ "FOO"` and the source value under `"FOO"` is present,
yet the mixed-case candidate `"Foo"` is looked up verbatim, misses, and
resolution yields the no-value sentinel — while the already-lower-cased
candidate `"foo"` finds the value. The claim's assertion that the resolver
normalizes the candidate name before the lookup is false. -/
theorem C4_counterexample :
    alLookup (keymapOf cfg4) "foo" = some "FOO"
    ∧ (alLookup cfg4.source "FOO").isSome
    ∧ getFieldValue cfg4 (simpleF ["Foo"]) ["Foo"] = .ok Option.none
    ∧ getFieldValue cfg4 (simpleF ["foo"]) ["foo"] = .ok (some (.str "x")) :=
  ⟨rfl, rfl, rfl, rfl⟩

/-- C4 (amended): the resolver looks each candidate name up in the Key
Index verbatim, without normalizing it; in case-insensitive mode a
candidate therefore matches a source key exactly when the candidate string
equals the lower-cased form of that source key (first such key wins), so a
mixed-case candidate such as `"Foo"` does not find a source key `"FOO"`,
while the lower-cased candidate `"foo"` does. -/
theorem C4_amended_verbatim_lookup (cfg : Cfg) (hcs : cfg.caseSensitive = false)
    (k : String) :
    alLookup (keymapOf cfg) k =
      (cfg.source.map Prod.fst).find? (fun s => strLower s == k) := by
  rw [keymapOf, keymapAux_lookup, alLookup_nil, none_optOr]
  simp only [normKey, hcs, Bool.false_eq_true, if_false]

/-- Witness for the amended C4 at the mixed-case example: the verbatim
candidate `"Foo"` finds nothing, the lower-cased `"foo"` finds `"FOO"`. -/
theorem C4_witness :
    alLookup (keymapOf cfg4) "Foo" = Option.none
    ∧ alLookup (keymapOf cfg4) "foo" = some "FOO" :=
  ⟨(C4_amended_verbatim_lookup cfg4 rfl "Foo").trans (by rfl),
   (C4_amended_verbatim_lookup cfg4 rfl "foo").trans (by rfl)⟩

/-- A dictionary value passes the classification/parse step unchanged,
whatever the field's classification. -/
theorem parseStep_dict (cfg : Cfg) (f : Field) (k : String) (d : Dict) :
    parseStep cfg f k (.dict d) = .ok (.dict d) := by
  simp [parseStep, Value.asDict]

/-- When every candidate in the scan list is either absent from the keymap
(with an empty fragment attributed to it) or resolves to a dictionary
fragment, `get_field_value` returns the left-to-right dictionary update of
all the fragments over the accumulator, or the no-value sentinel when that
update is empty. -/
theorem getFieldValueAux_all_dicts (cfg : Cfg) (km : List (String × String)) (f : Field) :
    ∀ (radar : List String) (skf : String → String) (frag : String → Dict),
    (∀ k ∈ radar,
      (alLookup km k = Option.none ∧ frag k = [])
      ∨ (alLookup km k = some (skf k) ∧ skf k ≠ ""
         ∧ alLookup cfg.source (skf k) = some (.dict (frag k)))) →
    ∀ acc, getFieldValueAux cfg km f radar acc =
      (if (radar.foldl (fun a k => alUpdate a (frag k)) acc).isEmpty then .ok Option.none
       else .ok (some (.dict (radar.foldl (fun a k => alUpdate a (frag k)) acc)))) := by
  intro radar
  induction radar with
  | nil => intro skf frag hall acc; rfl
  | cons k rest ih =>
    intro skf frag hall acc
    rcases hall k (by simp) with ⟨hn, hf⟩ | ⟨ha, hb, hc⟩
    · rw [List.foldl_cons, hf, show alUpdate acc [] = acc from rfl]
      simp only [getFieldValueAux, hn]
      exact ih skf frag (fun k' hk' => hall k' (List.mem_cons_of_mem _ hk')) acc
    · have hb' : (skf k == "") = false := beq_eq_false_iff_ne.mpr hb
      rw [List.foldl_cons]
      simp only [getFieldValueAux, ha, hb', Bool.false_eq_true, if_false, hc,
        Option.getD_some, Value.isNone, parseStep_dict, Value.asDict]
      exact ih skf frag (fun k' hk' => hall k' (List.mem_cons_of_mem _ hk')) (alUpdate acc (frag k))

/-- C5: for a field all of whose matching candidates yield dictionary
fragments (non-matching candidates contribute nothing), `get_field_value`
returns the left-to-right dictionary update of all the fragments across
the whole candidate list — so on a shared sub-key the later-processed
fragment wins, since a dictionary update replaces the value in place — and
when no fragment was collected the no-value sentinel is returned. -/
theorem C5_merge_fragments (cfg : Cfg) (f : Field) (radar : List String)
    (skf : String → String) (frag : String → Dict)
    (hall : ∀ k ∈ radar,
      (alLookup (keymapOf cfg) k = Option.none ∧ frag k = [])
      ∨ (alLookup (keymapOf cfg) k = some (skf k) ∧ skf k ≠ ""
         ∧ alLookup cfg.source (skf k) = some (.dict (frag k)))) :
    getFieldValue cfg f radar =
      (if (radar.foldl (fun a k => alUpdate a (frag k)) []).isEmpty then .ok Option.none
       else .ok (some (.dict (radar.foldl (fun a k => alUpdate a (frag k)) []))))
    ∧ ∀ (dacc : Dict) (key : String) (w : Value),
        alLookup (alSet dacc key w) key = some w :=
  ⟨getFieldValueAux_all_dicts cfg (keymapOf cfg) f radar skf frag hall [],
   fun dacc key w => alLookup_alSet_self dacc key w⟩

/-- The structured-merge example: two keys each holding a fragment of the
field's dictionary value, sharing the sub-key `"b"`. -/
def cfg5w : Cfg := ⟨[("X", .dict [("a", .int 1), ("b", .int 2)]),
  ("Y", .dict [("b", .int 3)])], true, Option.none, failP⟩

/-- Witness for C5: the two fragments merge, and the later fragment's
value wins on the shared sub-key `"b"`. -/
theorem C5_witness :
    getFieldValue cfg5w (simpleF ["X", "Y"]) ["X", "Y"]
      = .ok (some (.dict [("a", .int 1), ("b", .int 3)]))
    ∧ alLookup (alSet [("b", Value.int 2)] "b" (Value.int 3)) "b" = some (.int 3) := by
  have h := C5_merge_fragments cfg5w (simpleF ["X", "Y"]) ["X", "Y"] (fun k => k)
    (fun k => if k == "X" then [("a", .int 1), ("b", .int 2)] else [("b", .int 3)])
    (by
      intro k hk
      rcases List.mem_cons.mp hk with rfl | hk2
      · exact Or.inr ⟨rfl, by decide, rfl⟩
      · rcases List.mem_cons.mp hk2 with rfl | hk3
        · exact Or.inr ⟨rfl, by decide, rfl⟩
        · cases hk3)
  exact ⟨h.1.trans (by rfl), h.2 [("b", Value.int 2)] "b" (Value.int 3)⟩

/-- C10: a candidate name whose keymap entry is the empty string (Python's
falsy string) is treated exactly as a candidate that is absent from the
keymap: the scan continues with the remaining candidates and the source
value under that entry is never fetched. -/
theorem C10_falsy_key_skipped (cfg : Cfg) (f : Field) (k : String) (rest : List String)
    (acc : Dict) (h : alLookup (keymapOf cfg) k = some "") :
    getFieldValueAux cfg (keymapOf cfg) f (k :: rest) acc =
      getFieldValueAux cfg (keymapOf cfg) f rest acc := by
  simp only [getFieldValueAux, h, beq_self_eq_true, if_true]

/-- A source whose only key is the empty string, which the keymap maps to
itself. -/
def cfg10 : Cfg := ⟨[("", .str "x")], false, Option.none, failP⟩

/-- Witness for C10: the empty-string source key is indexed, but a
candidate hitting it resolves to the no-value sentinel — identical to an
absent candidate — even though the source holds a non-null value there. -/
theorem C10_witness :
    alLookup (keymapOf cfg10) "" = some ""
    ∧ getFieldValueAux cfg10 (keymapOf cfg10) (simpleF [""]) [""] []
        = getFieldValueAux cfg10 (keymapOf cfg10) (simpleF [""]) [] [] :=
  ⟨rfl, C10_falsy_key_skipped cfg10 (simpleF [""]) "" [] [] rfl⟩

/-- C9: resolving the same fields against the same source twice on one
mapper instance yields the same result mapping both times; the only state
the first call leaves behind is the memoized keymap, whose content is
determined by the source, and the second call leaves the state unchanged. -/
theorem C9_idempotent (cfg : Cfg) (fields : List Field) :
    (callMapperSt cfg fields ⟨Option.none⟩).1 =
      (callMapperSt cfg fields (callMapperSt cfg fields ⟨Option.none⟩).2).1
    ∧ (callMapperSt cfg fields (callMapperSt cfg fields ⟨Option.none⟩).2).2 =
      (callMapperSt cfg fields ⟨Option.none⟩).2
    ∧ (callMapperSt cfg fields ⟨Option.none⟩).2.cache = some (keymapOf cfg) :=
  ⟨rfl, rfl, rfl⟩

/-- C3: when a candidate's value is not a dictionary and the complex
parser fails on it, resolution raises `SettingsError` naming the candidate
key exactly when the field does not tolerate fallback (`field_is_complex`
returns `(true, false)`), and the whole `__call__` aborts with that error
and no partial result; when fallback is tolerated (`(true, true)`, a union
with a complex branch), no error is raised and the raw undecoded value is
placed in the result. -/
theorem C3_parse_failure_fatal_iff_intolerant (cfg : Cfg) (n al k sk : String)
    (v : Value) (ic iu : Bool)
    (h1 : alLookup (keymapOf cfg) k = some sk) (h2 : sk ≠ "")
    (h3 : alLookup cfg.source sk = some v) (h4 : v.isNone = false)
    (h5 : v.asDict = Option.none)
    (h6 : cfg.complexParser n v = .error ()) :
    (field_is_complex (.mk n al [k] true ic iu false []) = (true, false) →
      getFieldValue cfg (.mk n al [k] true ic iu false []) [k]
          = .error (.settingsError k)
      ∧ callMapper cfg [.mk n al [k] true ic iu false []]
          = .error (.settingsError k))
    ∧ (field_is_complex (.mk n al [k] true ic iu false []) = (true, true) →
      getFieldValue cfg (.mk n al [k] true ic iu false []) [k] = .ok (some v)
      ∧ callMapper cfg [.mk n al [k] true ic iu false []] = .ok [(al, v)]) := by
  have h2' : (sk == "") = false := beq_eq_false_iff_ne.mpr h2
  constructor
  · intro hfc
    have hgv : getFieldValueAux cfg (keymapOf cfg) (.mk n al [k] true ic iu false []) [k] []
        = .error (.settingsError k) := by
      simp only [getFieldValueAux, h1, h2', Bool.false_eq_true, if_false, if_true, h3,
        Option.getD_some, h4, parseStep, hfc, Field.name, h6, h5]
    refine ⟨hgv, ?_⟩
    have hup : updateResultForField cfg (keymapOf cfg) (.mk n al [k] true ic iu false []) "" []
        = .error (.settingsError k) := by
      simp only [updateResultForField, if_true, hgv]
    show callFields cfg (keymapOf cfg) [.mk n al [k] true ic iu false []] [] = _
    rw [callFields_cons, hup]
  · intro hfc
    have hgv : getFieldValueAux cfg (keymapOf cfg) (.mk n al [k] true ic iu false []) [k] []
        = .ok (some v) := by
      simp only [getFieldValueAux, h1, h2', Bool.false_eq_true, if_false, if_true, h3,
        Option.getD_some, h4, parseStep, hfc, Field.name, h6, h5]
    refine ⟨hgv, ?_⟩
    have hset : alSet ([] : Dict) al v = [(al, v)] := rfl
    have hup : updateResultForField cfg (keymapOf cfg) (.mk n al [k] true ic iu false []) "" []
        = .ok [(al, v)] := by
      simp only [updateResultForField, if_true, hgv, h5, hset, Field.isModel,
        Bool.false_eq_true, if_false]
      cases truthyDelim cfg <;> rfl
    show callFields cfg (keymapOf cfg) [.mk n al [k] true ic iu false []] [] = _
    rw [callFields_cons, hup]
    rfl

/-- A case-insensitive parse-failure example whose original source key
`"BAD"` differs in case from the candidate name `"bad"`. -/
def cfg3c : Cfg := ⟨[("BAD", .str "x")], false, Option.none, failP⟩

/-- Counterexample to C3 as stated: the configuration error raised on a
fatal parse failure names the candidate lookup name (`"bad"`), not the
field's original source key (`"BAD"` here, found through the keymap), so
the error does not identify the source key when the two differ in case. -/
theorem C3_counterexample :
    getFieldValue cfg3c (.mk "c" "c" ["bad"] true true false false []) ["bad"]
        = .error (.settingsError "bad")
    ∧ Err.settingsError "bad" ≠ Err.settingsError "BAD" :=
  ⟨rfl, by simp⟩

/-- The parse-failure example: one source key holding text the complex
parser rejects. -/
def cfg3w : Cfg := ⟨[("K", .str "bad")], true, Option.none, failP⟩

/-- Witness for C3: a strictly complex field aborts the whole resolution
with `SettingsError "K"`; a union-with-complex-branch field resolves to
the raw string. -/
theorem C3_witness :
    callMapper cfg3w [.mk "c" "c" ["K"] true true false false []]
        = .error (.settingsError "K")
    ∧ callMapper cfg3w [.mk "u" "u" ["K"] true false true false []]
        = .ok [("u", .str "bad")] :=
  ⟨((C3_parse_failure_fatal_iff_intolerant cfg3w "c" "c" "K" "K" (.str "bad") true false
      rfl (by decide) rfl rfl rfl rfl).1 rfl).2,
   ((C3_parse_failure_fatal_iff_intolerant cfg3w "u" "u" "K" "K" (.str "bad") false true
      rfl (by decide) rfl rfl rfl rfl).2 rfl).2⟩

/-- The nested-model configuration with delimiter `"__"` and an empty
source: no candidate of `db` or of its sub-field `host` can match. -/
def cfg6 : Cfg := ⟨[], true, some "__", failP⟩

/-- C6 (code bug): with a nesting delimiter configured, a nested-model
field with no matching candidate anywhere in the (empty) source still
appears in the result mapping as an empty dictionary — the nested-model
branch of `update_result_for_field` calls
`result.setdefault(field.alias, \x7b\x7d)` before resolving sub-fields — in
conflict with the claimed invariant and with `__call__`'s own docstring
("The mapping only consists of the the result for matched fields"). -/
theorem C6_unmatched_nested_field_left_as_empty_dict :
    callMapper cfg6 [dbF] = .ok [("db", .dict [])] := by
  have hHost : updateResultForField cfg6 [] hostF "DB__" [] = .ok [] := by
    simp only [hostF, updateResultForField]
    rfl
  have hLS : loopSubs cfg6 [] [hostF] "db" "DB__" [] = .ok [("db", .dict [])] := by
    simp only [loopSubs, show setdefaultGet [] "db" = .ok ([("db", .dict [])], []) from rfl,
      hHost]
    rfl
  have hLN : loopNames cfg6 [] [hostF] "db" "__" ["DB"] [] = .ok [("db", .dict [])] := by
    simp only [loopNames, show ("DB" ++ "__" : String) = "DB__" from rfl, hLS]
  have hDb : updateResultForField cfg6 [] dbF "" [] = .ok [("db", .dict [])] := by
    simp only [dbF, updateResultForField, List.map_cons, List.map_nil,
      show ("" ++ "DB" : String) = "DB" from rfl, Bool.false_eq_true, if_false, if_true,
      show getFieldValueAux cfg6 []
          (.mk "db" "db" ["DB"] false true false true [hostF]) ["DB"] [] = .ok Option.none
        from rfl,
      show truthyDelim cfg6 = some "__" from rfl, hLN]
  show callFields cfg6 (keymapOf cfg6) [dbF] [] = _
  rw [show keymapOf cfg6 = [] from rfl, callFields_cons, hDb]
  rfl

/-- The nested-model configuration of the delimiter example: delimiter
`"__"`, case-sensitive mode, and the single flattened source entry
`DB__HOST`. -/
def cfg7 (s : String) : Cfg := ⟨[("DB__HOST", .str s)], true, some "__", failP⟩

/-- C7: with nesting delimiter `"__"`, parent field `db` (candidate
`"DB"`) whose type is a nested model with sub-field `host` (candidate
`"HOST"`), and source entry `DB__HOST` holding any string value, the
resolver recursively resolves the sub-field under the prefixed candidate
`DB__HOST` and produces `\x7b"db": \x7b"host": value\x7d\x7d`, creating the
`db` entry even though no value was found for `db` itself. -/
theorem C7_nested_delimiter_recursion (s : String) :
    callMapper (cfg7 s) [dbF] = .ok [("db", .dict [("host", .str s)])] := by
  have hHost : updateResultForField (cfg7 s) [("DB__HOST", "DB__HOST")] hostF "DB__" []
      = .ok [("host", .str s)] := by
    simp only [hostF, updateResultForField]
    rfl
  have hLS : loopSubs (cfg7 s) [("DB__HOST", "DB__HOST")] [hostF] "db" "DB__" []
      = .ok [("db", .dict [("host", .str s)])] := by
    simp only [loopSubs, show setdefaultGet [] "db" = .ok ([("db", .dict [])], []) from rfl,
      hHost,
      show alSet [("db", Value.dict [])] "db" (.dict [("host", .str s)])
          = [("db", .dict [("host", .str s)])] from rfl]
  have hLN : loopNames (cfg7 s) [("DB__HOST", "DB__HOST")] [hostF] "db" "__" ["DB"] []
      = .ok [("db", .dict [("host", .str s)])] := by
    simp only [loopNames, show ("DB" ++ "__" : String) = "DB__" from rfl, hLS]
  have hDb : updateResultForField (cfg7 s) [("DB__HOST", "DB__HOST")] dbF "" []
      = .ok [("db", .dict [("host", .str s)])] := by
    simp only [dbF, updateResultForField, List.map_cons, List.map_nil,
      show ("" ++ "DB" : String) = "DB" from rfl, Bool.false_eq_true, if_false, if_true,
      show getFieldValueAux (cfg7 s) [("DB__HOST", "DB__HOST")]
          (.mk "db" "db" ["DB"] false true false true [hostF]) ["DB"] [] = .ok Option.none
        from rfl,
      show truthyDelim (cfg7 s) = some "__" from rfl, hLN]
  show callFields (cfg7 s) (keymapOf (cfg7 s)) [dbF] [] = _
  rw [show keymapOf (cfg7 s) = [("DB__HOST", "DB__HOST")] from rfl, callFields_cons, hDb]
  rfl

/-- A dotenv file that parses to `\x7b"K": "dot"\x7d` under every encoding. -/
def denv : DotenvFile := ⟨true, fun _ => [("K", "dot")]⟩

/-- Counterexample to C8: a key present both in a dotenv file and in the
live process environment resolves to the process-environment value, not
the dotenv value — `\x7b**env_vars, **os.environ\x7d` lets the process
environment win. -/
theorem C8_counterexample :
    alLookup (envSourceProvider [("K", "env")] [denv] "utf8") "K" = some "env"
    ∧ alLookup (envSourceProvider [("K", "env")] [denv] "utf8") "K" ≠ some "dot" :=
  ⟨rfl, by decide⟩

/-- C8 (amended): the environment mapping equals the dotenv-loaded values
overlaid with the live process environment, so on a key collision the
process environment wins and dotenv values only show through where the
environment is silent; among the dotenv files themselves later files win
via dictionary update, paths that are not existing files are silently
skipped, and a missing or empty encoding falls back to UTF-8. -/
theorem C8_amended_environ_wins (environ : List (String × String))
    (files : List DotenvFile) (enc : String) (k v : String)
    (hnd : (environ.map Prod.fst).Nodup) :
    (alLookup environ k = some v →
      alLookup (envSourceProvider environ files enc) k = some v)
    ∧ (alLookup environ k = Option.none →
      alLookup (envSourceProvider environ files enc) k =
        alLookup (if files.isEmpty then [] else dotenvSourceProvider files (some enc)) k)
    ∧ (∀ f, dotenvSourceProvider (files ++ [f]) (some enc) =
        (if f.isFile then
          alUpdate (dotenvSourceProvider files (some enc))
            (f.values (encodingOrDefault (some enc)))
         else dotenvSourceProvider files (some enc)))
    ∧ dotenvSourceProvider files Option.none = dotenvSourceProvider files (some "utf8")
    ∧ (∀ f, f.isFile = false →
        dotenvSourceProvider (f :: files) (some enc) =
          dotenvSourceProvider files (some enc)) := by
  have hbase : ∀ km, alLookup (envSourceProvider environ files enc) km =
      optOr (alLookup environ km)
        (alLookup (if files.isEmpty then [] else dotenvSourceProvider files (some enc)) km) :=
    fun km => alLookup_alUpdate_of_nodup _ environ km hnd
  refine ⟨fun h => ?_, fun h => ?_, fun f => ?_, rfl, fun f hf => ?_⟩
  · rw [hbase k, h, some_optOr]
  · rw [hbase k, h, none_optOr]
  · simp only [dotenvSourceProvider, List.foldl_append, List.foldl_cons, List.foldl_nil]
  · simp only [dotenvSourceProvider, List.foldl_cons, hf, Bool.false_eq_true, if_false]

/-- Witness for the amended C8: at the collision example the process
environment value `"env"` wins, and the default-encoding equation holds at
the concrete file. -/
theorem C8_witness :
    alLookup (envSourceProvider [("K", "env")] [denv] "utf8") "K" = some "env"
    ∧ dotenvSourceProvider [denv] Option.none = dotenvSourceProvider [denv] (some "utf8") :=
  ⟨(C8_amended_environ_wins [("K", "env")] [denv] "utf8" "K" "env" (by simp)).1 rfl,
   (C8_amended_environ_wins [("K", "env")] [denv] "utf8" "K" "env" (by simp)).2.2.2.1⟩

end PydanticSettings
